import Mathlib

/-!
Verification of the upload-processing pipeline of `src/application.py`
(data cleaning, hot/cold timestamp partitioning, CSV serialization and
human-readable size reporting).  The Python source is shallowly embedded:
DataFrame cells become `Value`, DataFrames become `Table`, and each code
block of the upload handler becomes a Lean function with the same
structure.  Behaviour of external libraries (pandas parsing, gzip) is
modelled where a claim depends on it, and the corresponding doc comments
say exactly what is modelled.
-/

/-- A scalar cell of a table.  `null` models pandas NaN/NaT/None, `int`
a numeric cell, `str` a text cell, and `time` a parsed timestamp as
produced by `pd.to_datetime` (integer time units, days here). -/
inductive Value where
  | null
  | int (n : ℤ)
  | str (s : String)
  | time (t : ℤ)
  deriving DecidableEq

abbrev Row := List Value

/-- An in-memory table: ordered column names plus ordered rows
(a pandas DataFrame). -/
structure Table where
  cols : List String
  rows : List Row
  deriving DecidableEq

/-- The designated timestamp column name used by the upload handler. -/
def tsCol : String := "timestamp"

/-- Column name produced by the text-like ingestion branches. -/
def textContentCol : String := "text_content"

/-- Suffix default of `bytesize_fmt` (`suffix="B"`). -/
def sfxB : String := "B"

/-- `df.dropna()` (src/application.py:625): keep exactly the rows that
contain no absent value. -/
def dropna (t : Table) : Table :=
  ⟨t.cols, t.rows.filter (fun r => decide (Value.null ∉ r))⟩

/-- `df.duplicated()` keep-first scan: a row is marked iff it equals
(on all columns) SOME earlier row of the scan, marked or not; `earlier`
collects every row already scanned. -/
def drop_duplicates_aux (earlier : List Row) : List Row → List Row
  | [] => []
  | r :: rs =>
      if r ∈ earlier then drop_duplicates_aux (r :: earlier) rs
      else r :: drop_duplicates_aux (r :: earlier) rs

/-- `df.drop_duplicates()` (src/application.py:627): drop the rows
`df.duplicated()` marks; the first occurrence is kept and the order of
kept rows is unchanged. -/
def drop_duplicates (l : List Row) : List Row := drop_duplicates_aux [] l

/-- The cleaning block of the upload handler (src/application.py:624-634):
`before = len(df); df = df.dropna(); after_na = len(df);
df = df.drop_duplicates(); after_dup = len(df)`, reporting
`(df, before - after_na, after_na - after_dup)`. -/
def clean (t : Table) : Table × ℕ × ℕ :=
  let before := t.rows.length
  let t1 := dropna t
  let after_na := t1.rows.length
  let t2 : Table := ⟨t1.cols, drop_duplicates t1.rows⟩
  let after_dup := t2.rows.length
  (t2, before - after_na, after_na - after_dup)

/-- Reference duplicate removal following the spec's words: a row is a
duplicate iff all its column values are pairwise equal to a previously
retained row's values; the first occurrence wins and retained rows keep
their relative order.  (`seen` is the set of previously retained rows.) -/
def dedupSpec (seen : List Row) : List Row → List Row
  | [] => []
  | r :: rs => if r ∈ seen then dedupSpec seen rs else r :: dedupSpec (r :: seen) rs

/-- Reference cleaning stage following the spec's words: first drop every
row containing at least one absent value (reporting how many rows were
dropped), then drop exact-duplicate rows from the remainder (reporting
that count). -/
def cleanSpec (t : Table) : Table × ℕ × ℕ :=
  let complete := t.rows.filter (fun r => decide (Value.null ∉ r))
  let incompleteCount := t.rows.countP (fun r => decide (Value.null ∈ r))
  let kept := dedupSpec [] complete
  (⟨t.cols, kept⟩, incompleteCount, complete.length - kept.length)

/-- Numeric value of a digit string (most significant digit first). -/
def digitsVal (ds : List Char) : ℕ :=
  ds.foldl (fun a c => 10 * a + (c.toNat - Char.toNat '0')) 0

/-- Integer-literal parse of a character sequence: an optional sign
followed by at least one decimal digit; anything else fails. -/
def toIntChars : List Char → Option ℤ
  | [] => none
  | '-' :: ds =>
      if ds ≠ [] ∧ ds.all Char.isDigit then some (-(digitsVal ds : ℤ)) else none
  | '+' :: ds =>
      if ds ≠ [] ∧ ds.all Char.isDigit then some (digitsVal ds : ℤ) else none
  | ds => if ds.all Char.isDigit then some (digitsVal ds : ℤ) else none

/-- A single cell under `pd.to_datetime(·, errors="coerce")`.  Modelled
from the spec: the real parser is the external pandas library; here a
numeric cell or an integer-literal text cell parses to a timestamp, an
absent value or non-numeric text coerces to NaT (`none`) instead of
raising. -/
def to_datetime : Value → Option ℤ
  | Value.int n => some n
  | Value.str s => toIntChars s.data
  | Value.time t => some t
  | Value.null => none

/-- NaT-or-timestamp cell written back into the `timestamp` column by
`df["timestamp"] = pd.to_datetime(...)`. -/
def toTsValue : Option ℤ → Value
  | none => Value.null
  | some n => Value.time n

/-- One row after the `timestamp` column (index `i`) has been converted. -/
def parseTsRow (i : ℕ) (r : Row) : Row :=
  r.set i (toTsValue (to_datetime (r.getD i Value.null)))

/-- `df["timestamp"] >= cutoff` on a converted cell: only a genuine
timestamp compares, NaT (and anything else) propagates to `False`. -/
def tsGE (cutoff : ℤ) : Value → Bool
  | Value.time n => decide (cutoff ≤ n)
  | _ => false

/-- `df["timestamp"] < cutoff` on a converted cell; NaT compares `False`. -/
def tsLT (cutoff : ℤ) : Value → Bool
  | Value.time n => decide (n < cutoff)
  | _ => false

/-- The hot/cold partition block (src/application.py:648-652): convert the
`timestamp` column, take `cutoff = now - 30 days` once, and filter the
converted table with `>=` (hot) and `<` (cold).  Time is measured in days
so `timedelta(days=30)` is the integer 30. -/
def partitionTs (now : ℤ) (t : Table) : Table × Table :=
  let i := t.cols.indexOf tsCol
  let cutoff := now - 30
  let rows' := t.rows.map (fun r => parseTsRow i r)
  let hot := rows'.filter (fun r => tsGE cutoff (r.getD i Value.null))
  let cold := rows'.filter (fun r => tsLT cutoff (r.getD i Value.null))
  (⟨t.cols, hot⟩, ⟨t.cols, cold⟩)

/-- Join fields with a single separator character (`",".join` / the field
layout produced by `csv` writing). -/
def joinSep (sep : Char) : List (List Char) → List Char
  | [] => []
  | [f] => f
  | f :: fs => f ++ sep :: joinSep sep fs

/-- Split a character sequence at every occurrence of `sep`
(Python `str.split(sep)`): always at least one (possibly empty) field. -/
def splitSep (sep : Char) : List Char → List (List Char)
  | [] => [[]]
  | c :: cs =>
      if c = sep then [] :: splitSep sep cs
      else (splitSep sep cs).modifyHead (fun f => c :: f)

/-- Python `str.splitlines()`: break at `\n`, `\r` and `\r\n`, with no
empty trailing line for a trailing line break. -/
def splitlinesAux : List Char → List Char → List (List Char)
  | [], acc => if acc = [] then [] else [acc]
  | '\r' :: '\n' :: rest, acc => acc :: splitlinesAux rest []
  | '\n' :: rest, acc => acc :: splitlinesAux rest []
  | '\r' :: rest, acc => acc :: splitlinesAux rest []
  | c :: rest, acc => splitlinesAux rest (acc ++ [c])

def splitlines (cs : List Char) : List (List Char) := splitlinesAux cs []

/-- Python `str.strip()`: remove leading and trailing whitespace. -/
def strip (cs : List Char) : List Char :=
  ((cs.dropWhile Char.isWhitespace).reverse.dropWhile Char.isWhitespace).reverse

/-- Text rendered into a CSV field for one cell (`df.to_csv` value
rendering): absent values become the empty field, numbers and timestamps
their decimal text, text cells their own text. -/
def render : Value → String
  | Value.null => ""
  | Value.int n => toString n
  | Value.str s => s
  | Value.time t => toString t

/-- One CSV line: comma-joined fields plus the line terminator. -/
def lineOf (fields : List (List Char)) : List Char :=
  joinSep ',' fields ++ ['\n']

/-- The CSV fields of one row: each cell rendered by `render`. -/
def rowFields (r : Row) : List (List Char) :=
  r.map (fun v => (render v).data)

/-- `dataframe_to_csv_bytes` (src/application.py:13-14):
`df.to_csv(index=False)` = header line with the column names in order,
then one line per row with each cell rendered by `render`.  Modelled from
the spec: the writer is the external pandas library; quoting of fields
containing separator characters is outside the model, which is faithful
for fields free of `,`, `"` and line breaks. -/
def to_csv (t : Table) : List Char :=
  lineOf (t.cols.map String.data) ++
    (t.rows.map (fun r => lineOf (rowFields r))).flatten

/-- Type inference `pd.read_csv` applies to one field.  Modelled from the
spec: the reader is the external pandas library; an empty field reads as
absent (NaN), an integer-literal field as a number, anything else as
text. -/
def infer (field : List Char) : Value :=
  if field = [] then Value.null
  else
    match toIntChars field with
    | some n => Value.int n
    | none => Value.str (String.mk field)

/-- `pd.read_csv` (src/application.py:30).  Modelled from the spec: the
reader is the external pandas library restricted to the features the
pipeline relies on — lines split at `\n`, blank lines skipped, fields
split at commas, first line taken as the header, per-field inference by
`infer`; a buffer with no non-blank line fails (pandas `EmptyDataError`,
caught by the handler's outer except). -/
def read_csv (text : List Char) : Option Table :=
  match (splitSep '\n' text).filter (fun l => decide (l ≠ [])) with
  | [] => none
  | header :: body =>
      some ⟨(splitSep ',' header).map String.mk,
            body.map (fun l => (splitSep ',' l).map infer)⟩

/-- The single-column table built by the text-like ingestion branches
(src/application.py:38, 45, 50):
`pd.DataFrame([line.strip() for line in text.splitlines()],
columns=["text_content"])`. -/
def linesTable (text : List Char) : Table :=
  ⟨[textContentCol], (splitlines text).map (fun l => [Value.str (String.mk (strip l))])⟩

/-- Concatenated text of a PDF (src/application.py:41-44): each page
contributes `page.extract_text() or ""`, so a page whose extraction
fails (returns no text) contributes the empty string. -/
def pdfText (pages : List (Option (List Char))) : List Char :=
  (pages.map (fun p => p.getD [])).flatten

/-- `uploaded_file.name.split(".")[-1].lower()` (src/application.py:26). -/
def extOf (name : String) : String :=
  String.mk (((splitSep '.' name.data).getLastD []).map Char.toLower)

/-- An uploaded file: its name plus every decoded form the dispatch
branches can consume.  The spreadsheet/structured decodes are results of
the external pandas readers (treated as given data), the pdf/docx fields
are the page/paragraph texts the external extractors return. -/
structure UploadedFile where
  name : String
  content : List Char
  xlsxTable : Table
  jsonTable : Table
  pdfPages : List (Option (List Char))
  docxParas : List (List Char)

inductive ReadError where
  | unsupported (ext : String)
  | ingest
  deriving DecidableEq

/-- `read_uploaded_file` (src/application.py:24-55): dispatch on the
lower-cased trailing extension; text-like formats become a single-column
table of stripped lines; an unrecognized extension stops the script
(`st.error` + `st.stop`), modelled as the `unsupported` error. -/
def read_uploaded_file (f : UploadedFile) : Except ReadError Table :=
  let ext := extOf f.name
  if ext = "csv" then
    match read_csv f.content with
    | some t => Except.ok t
    | none => Except.error ReadError.ingest
  else if ext = "xlsx" then Except.ok f.xlsxTable
  else if ext = "json" then Except.ok f.jsonTable
  else if ext = "txt" then Except.ok (linesTable f.content)
  else if ext = "pdf" then Except.ok (linesTable (pdfText f.pdfPages))
  else if ext = "docx" then Except.ok (linesTable (joinSep '\n' f.docxParas))
  else Except.error (ReadError.unsupported ext)

/-- Fixed-point decimal rendering of the exact value `n / 1024 ^ k` with
`d` fractional digits, mirroring the f-strings `{num:3.2f}` and
`{num:.1f}` of `bytesize_fmt`.  For byte counts below 2^53 the Python
float holds `n / 1024 ^ k` exactly, and f-string formatting rounds that
exact value to `d` decimals to nearest with ties to even; `scaled`
performs the same rounding on the exact fraction `|n| * 10 ^ d / 1024 ^ k`
(down below the halfway point, up above it, and to the even quotient on
an exact tie, e.g. 1152 bytes → 1.125 K → `1.12`).  The minimum field
width 3 of `{num:3.2f}` never pads, since two decimals already give at
least four characters. -/
def fmtFixedPow2 (n : ℤ) (k d : ℕ) : String :=
  let a := n.natAbs * 10 ^ d
  let b := 1024 ^ k
  let q := a / b
  let r := a % b
  let scaled : ℕ :=
    if 2 * r < b then q
    else if b < 2 * r then q + 1
    else if q % 2 = 0 then q else q + 1
  let ip := scaled / 10 ^ d
  let fp := scaled % 10 ^ d
  let fpStr := toString fp
  let pad := String.mk (List.replicate (d - fpStr.length) '0')
  (if n < 0 then "-" else "") ++ toString ip ++ "." ++ pad ++ fpStr

/-- The unit loop of `bytesize_fmt` (src/application.py:16-21).  The loop
state `num = n / 1024 ^ k` is carried exactly as the pair `(n, k)`;
`abs(num) < 1024.0` is exactly `|n| < 1024 ^ (k + 1)`; the final
fall-through formats with one decimal and unit `P`. -/
def bytesize_fmt_go (suffix : String) (n : ℤ) : List String → ℕ → String
  | [], k => fmtFixedPow2 n k 1 ++ " P" ++ suffix
  | u :: us, k =>
      if n.natAbs < 1024 ^ (k + 1) then fmtFixedPow2 n k 2 ++ " " ++ u ++ suffix
      else bytesize_fmt_go suffix n us (k + 1)

/-- `bytesize_fmt` (src/application.py:16-21) on an integer byte count. -/
def bytesize_fmt (n : ℤ) (suffix : String) : String :=
  bytesize_fmt_go suffix n ["", "K", "M", "G", "T"] 0

/-- Number of digits directly after the decimal point of a rendered
size string. -/
def fracDigits (s : String) : ℕ :=
  (((s.data.dropWhile (fun c => c ≠ '.')).drop 1).takeWhile Char.isDigit).length

/-- Everything the upload handler shows or offers after a successful run
(src/application.py:620-667). -/
structure Output where
  cleaned : Table
  removed_na : ℕ
  removed_dup : ℕ
  processed_csv : List Char
  compressed : List Char
  partitionSkipped : Bool
  hot : Table
  cold : Table
  rowsMetric : ℕ
  csvSize : String
  gzipSize : String
  downloads : List String

/-- Download file names offered on success (src/application.py:666-667). -/
def downloadNames : List String := [r"processed.csv", r"processed.csv.gz"]

/-- The successful-run body of the upload handler
(src/application.py:624-667): clean, serialize, compress, then partition
when a `timestamp` column exists, otherwise report the skip and leave
both partitions empty.  `compress` is the external `gzip.compress`,
passed in as a function; `now` is `datetime.now()`, read once. -/
def processTable (compress : List Char → List Char) (now : ℤ) (df0 : Table) : Output :=
  let c := clean df0
  let df := c.1
  let processed_csv := to_csv df
  let compressed := compress processed_csv
  let base : Output :=
    { cleaned := df, removed_na := c.2.1, removed_dup := c.2.2,
      processed_csv := processed_csv, compressed := compressed,
      partitionSkipped := true, hot := ⟨[], []⟩, cold := ⟨[], []⟩,
      rowsMetric := df.rows.length,
      csvSize := bytesize_fmt (processed_csv.length : ℤ) sfxB,
      gzipSize := bytesize_fmt (compressed.length : ℤ) sfxB,
      downloads := downloadNames }
  if tsCol ∈ df.cols then
    let p := partitionTs now df
    { base with partitionSkipped := false, hot := p.1, cold := p.2 }
  else base

inductive RunResult where
  | failed (e : ReadError)
  | success (o : Output)

/-- One full pipeline run (src/application.py:613-670): ingestion followed
by the processing body; an ingestion failure aborts with no cleaning, no
metrics and no downloads. -/
def runUpload (compress : List Char → List Char) (now : ℤ) (f : UploadedFile) : RunResult :=
  match read_uploaded_file f with
  | Except.error e => RunResult.failed e
  | Except.ok df => RunResult.success (processTable compress now df)

/-- The textual content of a table's rows, used to compare tables up to
textual equality of values. -/
def cellTexts (t : Table) : List (List String) :=
  t.rows.map (fun r => r.map render)

/-! ### Concrete fixtures used by witnesses and counterexamples -/

/-- The concrete scenario-1 input table:
rows `[{a:1, b:2}, {a:1, b:2}, {a:3, b:null}]`. -/
def scenTable : Table :=
  ⟨[r"a", r"b"],
   [[Value.int 1, Value.int 2], [Value.int 1, Value.int 2], [Value.int 3, Value.null]]⟩

/-- A one-cell table whose only value is the text `01`. -/
def cexTable : Table := ⟨[r"a"], [[Value.str (String.mk ['0', '1'])]]⟩

/-- The table `read_csv` gives back for the serialized `cexTable`. -/
def cexReadBack : Table := ⟨[r"a"], [[Value.int 1]]⟩

/-- A two-column, two-row table of safe textual values. -/
def rtTable : Table :=
  ⟨[r"a", r"b"],
   [[Value.int 1, Value.str (String.mk ['x'])],
    [Value.int 3, Value.str (String.mk ['y'])]]⟩

/-- A `timestamp` table with one 2-day-old and one 45-day-old value,
against `now = 100` (days). -/
def tsTable : Table := ⟨[tsCol], [[Value.int 98], [Value.int 55]]⟩

/-- A row whose `timestamp` value does not parse. -/
def badRow : Row := [Value.str (String.mk ['b', 'a', 'd'])]

/-- A `timestamp` table whose single value does not parse. -/
def badTsTable : Table := ⟨[tsCol], [badRow]⟩

/-- A single blank-line row as produced by text ingestion. -/
def blankRow : Row := [Value.str (String.mk [])]

def blankTable : Table := ⟨[textContentCol], [blankRow]⟩

/-- An upload named `data.xml` (unsupported extension). -/
def xmlFile : UploadedFile := ⟨r"data.xml", [], ⟨[], []⟩, ⟨[], []⟩, [], []⟩

/-- An upload named `notes.txt` with two text lines. -/
def txtFile : UploadedFile :=
  ⟨r"notes.txt", ['a', '\n', ' ', 'b', ' '], ⟨[], []⟩, ⟨[], []⟩, [], []⟩

/-- An upload named `scan.pdf` with one failing page between two pages. -/
def pdfFile : UploadedFile :=
  ⟨r"scan.pdf", [], ⟨[], []⟩, ⟨[], []⟩,
   [some ['h', 'i', '\n'], none, some ['y', 'o']], []⟩

/-- A table lacking a `timestamp` column. -/
def noTsTable : Table := ⟨[r"a"], [[Value.int 1], [Value.int 1], [Value.null]]⟩

/-! ### Lemmas about duplicate removal -/

theorem drop_duplicates_aux_sublist (l : List Row) :
    ∀ earlier, (drop_duplicates_aux earlier l).Sublist l := by
  induction l with
  | nil => intro earlier; simp [drop_duplicates_aux]
  | cons r rs ih =>
    intro earlier
    simp only [drop_duplicates_aux]
    split
    · exact (ih (r :: earlier)).trans (List.sublist_cons_self r rs)
    · exact List.Sublist.cons₂ r (ih (r :: earlier))

theorem drop_duplicates_sublist (l : List Row) : (drop_duplicates l).Sublist l :=
  drop_duplicates_aux_sublist l []

theorem drop_duplicates_aux_eq_dedupSpec (l : List Row) :
    ∀ seen earlier, (∀ x, x ∈ earlier ↔ x ∈ seen) →
      drop_duplicates_aux earlier l = dedupSpec seen l := by
  induction l with
  | nil => intro seen earlier _; simp [drop_duplicates_aux, dedupSpec]
  | cons r rs ih =>
    intro seen earlier hiff
    simp only [drop_duplicates_aux, dedupSpec]
    by_cases hr : r ∈ earlier
    · rw [if_pos hr, if_pos ((hiff r).mp hr)]
      refine ih seen (r :: earlier) (fun x => ?_)
      simp only [List.mem_cons]
      constructor
      · rintro (rfl | hx)
        · exact (hiff x).mp hr
        · exact (hiff x).mp hx
      · intro hx
        exact Or.inr ((hiff x).mpr hx)
    · rw [if_neg hr, if_neg (fun h => hr ((hiff r).mpr h))]
      refine congrArg (r :: ·) (ih (r :: seen) (r :: earlier) (fun x => ?_))
      simp only [List.mem_cons, hiff x]

theorem drop_duplicates_eq_dedupSpec (l : List Row) :
    drop_duplicates l = dedupSpec [] l :=
  drop_duplicates_aux_eq_dedupSpec l [] [] (fun x => by simp)

theorem drop_duplicates_aux_nodup (l : List Row) :
    ∀ earlier, (drop_duplicates_aux earlier l).Nodup ∧
      ∀ x ∈ drop_duplicates_aux earlier l, x ∉ earlier := by
  induction l with
  | nil => intro earlier; simp [drop_duplicates_aux]
  | cons r rs ih =>
    intro earlier
    simp only [drop_duplicates_aux]
    split
    · refine ⟨(ih (r :: earlier)).1, fun x hx => ?_⟩
      have := (ih (r :: earlier)).2 x hx
      simp only [List.mem_cons] at this
      exact fun hmem => this (Or.inr hmem)
    · rename_i hr
      obtain ⟨hnd, hnotin⟩ := ih (r :: earlier)
      refine ⟨List.nodup_cons.mpr ⟨fun hmem => ?_, hnd⟩, ?_⟩
      · exact hnotin r hmem (List.mem_cons_self r earlier)
      · intro x hx
        rcases List.mem_cons.mp hx with rfl | hx'
        · exact hr
        · intro hmem
          exact hnotin x hx' (List.mem_cons_of_mem r hmem)

theorem drop_duplicates_nodup (l : List Row) : (drop_duplicates l).Nodup :=
  (drop_duplicates_aux_nodup l []).1

theorem drop_duplicates_aux_eq_self (l : List Row) :
    ∀ earlier, l.Nodup → (∀ x ∈ l, x ∉ earlier) → drop_duplicates_aux earlier l = l := by
  induction l with
  | nil => intro earlier _ _; simp [drop_duplicates_aux]
  | cons r rs ih =>
    intro earlier hnd hdisj
    obtain ⟨hr, hrs⟩ := List.nodup_cons.mp hnd
    simp only [drop_duplicates_aux]
    rw [if_neg (hdisj r (List.mem_cons_self r rs))]
    refine congrArg (r :: ·) (ih (r :: earlier) hrs (fun x hx => ?_))
    intro hmem
    rcases List.mem_cons.mp hmem with rfl | hmem'
    · exact hr hx
    · exact hdisj x (List.mem_cons_of_mem r hx) hmem'

theorem drop_duplicates_of_nodup {l : List Row} (h : l.Nodup) :
    drop_duplicates l = l :=
  drop_duplicates_aux_eq_self l [] h (by simp)

theorem drop_duplicates_idem (l : List Row) :
    drop_duplicates (drop_duplicates l) = drop_duplicates l :=
  drop_duplicates_of_nodup (drop_duplicates_nodup l)

/-- Rows removed by a filter, counted: `len(l) - len(filter p l)` is the
number of rows failing `p`. -/
theorem length_sub_length_filter (l : List Row) (p : Row → Bool) :
    l.length - (l.filter p).length = l.countP (fun r => !(p r)) := by
  rw [List.length_eq_length_filter_add p, List.countP_eq_length_filter]
  exact Nat.add_sub_cancel_left _ _

/-- A table all of whose rows are complete and duplicate-free is left
unchanged by the cleaning block, with both counts zero. -/
theorem clean_fixed (u : Table) (h1 : ∀ r ∈ u.rows, Value.null ∉ r)
    (h2 : u.rows.Nodup) : clean u = (u, 0, 0) := by
  obtain ⟨cols, rows⟩ := u
  simp only [clean, dropna]
  rw [List.filter_eq_self.mpr (fun r hr => decide_eq_true (h1 r hr))]
  rw [drop_duplicates_of_nodup h2]
  simp

/-- Rows produced by text-like ingestion hold a single text cell and
never an absent value. -/
theorem linesTable_no_null (text : List Char) :
    ∀ r ∈ (linesTable text).rows, Value.null ∉ r := by
  intro r hr
  simp only [linesTable] at hr
  obtain ⟨l, _, rfl⟩ := List.mem_map.mp hr
  simp

/-- A table with no absent value is left unchanged by `dropna`. -/
theorem dropna_eq_self (u : Table) (h : ∀ r ∈ u.rows, Value.null ∉ r) :
    dropna u = u := by
  obtain ⟨cols, rows⟩ := u
  simp only [dropna]
  rw [List.filter_eq_self.mpr (fun r hr => decide_eq_true (h r hr))]

/-- C1: the cleaning stage equals the reference definition — incomplete
rows (those containing an absent value) are removed and counted first,
exact duplicates (all column values pairwise equal) are removed from the
remainder with the first occurrence retained; retained rows keep their
input order; the two counts plus the cleaned size sum to the input size,
so a row removed for incompleteness is never also counted as a duplicate;
and the concrete scenario yields `[{a:1, b:2}]` with counts `(1, 1)`. -/
theorem clean_matches_reference (t : Table) :
    clean t = cleanSpec t ∧
    (clean t).1.rows.Sublist t.rows ∧
    (clean t).2.1 + (clean t).2.2 + (clean t).1.rows.length = t.rows.length ∧
    clean scenTable = (⟨[r"a", r"b"], [[Value.int 1, Value.int 2]]⟩, 1, 1) := by
  refine ⟨?_, ?_, ?_, by decide⟩
  · simp only [clean, cleanSpec, dropna, drop_duplicates_eq_dedupSpec, Prod.mk.injEq]
    refine ⟨trivial, ?_, trivial⟩
    rw [length_sub_length_filter]
    simp only [decide_not, Bool.not_not]
  · exact (drop_duplicates_sublist _).trans (List.filter_sublist t.rows)
  · have h1 : (t.rows.filter (fun r => decide (Value.null ∉ r))).length ≤ t.rows.length :=
      List.length_filter_le _ _
    have h2 : (drop_duplicates (t.rows.filter (fun r => decide (Value.null ∉ r)))).length ≤
        (t.rows.filter (fun r => decide (Value.null ∉ r))).length :=
      (drop_duplicates_sublist _).length_le
    simp only [clean, dropna]
    omega

/-- C9: cleaning is idempotent — a second application of the cleaning
block to an already cleaned table removes zero incomplete rows and zero
duplicate rows and returns the table unchanged. -/
theorem clean_idempotent (t : Table) :
    clean (clean t).1 = ((clean t).1, 0, 0) := by
  refine clean_fixed _ (fun r hr => ?_) ?_
  · have h2 := (drop_duplicates_sublist ((dropna t).rows)).subset hr
    exact of_decide_eq_true (List.mem_filter.mp h2).2
  · exact drop_duplicates_nodup ((dropna t).rows)

/-- C10: the completeness filter treats only absent values as
incomplete — the incomplete-row count is exactly the number of rows
containing an absent value, every row with no absent value is retained
by the filter, and the rows produced by text-like ingestion (whose cells
may be empty strings, as from blank lines) contain no absent value, so
their tables pass the filter unchanged with an incomplete count of 0. -/
theorem dropna_only_null_incomplete (t : Table) :
    (clean t).2.1 = t.rows.countP (fun r => decide (Value.null ∈ r)) ∧
    (∀ r ∈ t.rows, Value.null ∉ r → r ∈ (dropna t).rows) ∧
    (∀ text : List Char, dropna (linesTable text) = linesTable text) ∧
    (∀ text : List Char, (clean (linesTable text)).2.1 = 0) := by
  refine ⟨?_, ?_, ?_, ?_⟩
  · have h : (clean t).2.1 =
        t.rows.length - (t.rows.filter (fun r => decide (Value.null ∉ r))).length := rfl
    rw [h, length_sub_length_filter]
    simp only [decide_not, Bool.not_not]
  · intro r hr hnull
    simp only [dropna]
    exact List.mem_filter.mpr ⟨hr, decide_eq_true hnull⟩
  · intro text
    exact dropna_eq_self _ (linesTable_no_null text)
  · intro text
    have h : (clean (linesTable text)).2.1 =
        (linesTable text).rows.length - (dropna (linesTable text)).rows.length := rfl
    rw [h, dropna_eq_self _ (linesTable_no_null text), Nat.sub_self]

/-- Witness for C10 at a concrete input: a blank-line row (a single
empty-string cell) is retained by the completeness filter. -/
theorem dropna_only_null_incomplete_witness :
    blankRow ∈ (dropna blankTable).rows :=
  (dropna_only_null_incomplete blankTable).2.1 blankRow (by decide) (by decide)

/-! ### Lemmas about the hot/cold partition -/

theorem getD_set_lt {α : Type} (l : List α) (i : ℕ) (a d : α) (h : i < l.length) :
    (l.set i a).getD i d = a := by
  rw [List.getD_eq_getElem?_getD, List.getElem?_set_eq_of_lt a h]
  rfl

/-- The converted `timestamp` cell of any row is exactly the coerced
parse of the original cell (out-of-range reads behave like absent
cells on both sides). -/
theorem parseTsRow_getD (i : ℕ) (r : Row) :
    (parseTsRow i r).getD i Value.null = toTsValue (to_datetime (r.getD i Value.null)) := by
  by_cases h : i < r.length
  · exact getD_set_lt r i _ Value.null h
  · push_neg at h
    rw [parseTsRow, List.set_eq_of_length_le h, List.getD_eq_default _ _ h]
    rfl

theorem toTsValue_some (n : ℤ) : toTsValue (some n) = Value.time n := rfl

theorem toTsValue_none : toTsValue none = Value.null := rfl

theorem tsGE_time (c n : ℤ) : tsGE c (Value.time n) = decide (c ≤ n) := rfl

theorem tsLT_time (c n : ℤ) : tsLT c (Value.time n) = decide (n < c) := rfl

theorem tsGE_null (c : ℤ) : tsGE c Value.null = false := rfl

theorem tsLT_null (c : ℤ) : tsLT c Value.null = false := rfl

/-- Core counting fact: hot plus cold sizes equal the number of rows
whose timestamp cell parses. -/
theorem hotcold_count_aux (i : ℕ) (cutoff : ℤ) (L : List Row) :
    (List.filter (fun r => tsGE cutoff (r.getD i Value.null)) (L.map (parseTsRow i))).length +
      (List.filter (fun r => tsLT cutoff (r.getD i Value.null)) (L.map (parseTsRow i))).length =
      L.countP (fun r => (to_datetime (r.getD i Value.null)).isSome) := by
  induction L with
  | nil => simp
  | cons r rs ih =>
    simp only [List.map_cons, List.filter_cons, List.countP_cons, parseTsRow_getD]
    rcases ho : to_datetime (r.getD i Value.null) with _ | n
    · rw [toTsValue_none, tsGE_null, tsLT_null]
      simp only [Bool.false_eq_true, if_false, Option.isSome_none]
      simpa using ih
    · rw [toTsValue_some, tsGE_time, tsLT_time]
      rcases le_or_lt cutoff n with h | h
      · rw [decide_eq_true h, decide_eq_false (not_lt.mpr h)]
        simp only [Bool.false_eq_true, if_false, if_true, Option.isSome_some,
          List.length_cons]
        omega
      · rw [decide_eq_true h, decide_eq_false (not_le.mpr h)]
        simp only [Bool.false_eq_true, if_false, if_true, Option.isSome_some,
          List.length_cons]
        omega

theorem partitionTs_count (now : ℤ) (t : Table) :
    (partitionTs now t).1.rows.length + (partitionTs now t).2.rows.length =
      t.rows.countP
        (fun r => (to_datetime (r.getD (t.cols.indexOf tsCol) Value.null)).isSome) := by
  simp only [partitionTs]
  exact hotcold_count_aux _ _ _

/-- No row is placed into both partitions. -/
theorem partitionTs_disjoint (now : ℤ) (t : Table) :
    ∀ r ∈ (partitionTs now t).1.rows, r ∉ (partitionTs now t).2.rows := by
  intro r hr hc
  simp only [partitionTs, List.mem_filter] at hr hc
  obtain ⟨-, hge⟩ := hr
  obtain ⟨-, hlt⟩ := hc
  rcases hv : r.getD (t.cols.indexOf tsCol) Value.null with _ | n | s | m
  all_goals rw [hv] at hge hlt
  · exact Bool.false_ne_true hge
  · exact Bool.false_ne_true hge
  · exact Bool.false_ne_true hge
  · have h1 := of_decide_eq_true hge
    have h2 := of_decide_eq_true hlt
    exact absurd h1 (not_le.mpr h2)

/-- C2: on a cleaned table with a `timestamp` column in which every value
parses, partitioning with cutoff `now - 30` assigns each row with
timestamp ≥ cutoff to the hot partition (and not the cold one), each row
with timestamp < cutoff to the cold partition (and not the hot one); the
partitions are disjoint and their sizes sum to the table size.  The
cutoff is built from a single `now`, read once per call. -/
theorem partition_hot_cold (t : Table) (now : ℤ)
    (_hcol : tsCol ∈ t.cols)
    (hall : ∀ r ∈ t.rows,
      (to_datetime (r.getD (t.cols.indexOf tsCol) Value.null)).isSome = true) :
    (∀ r ∈ t.rows, ∀ n : ℤ,
      to_datetime (r.getD (t.cols.indexOf tsCol) Value.null) = some n →
        (now - 30 ≤ n →
          parseTsRow (t.cols.indexOf tsCol) r ∈ (partitionTs now t).1.rows ∧
          parseTsRow (t.cols.indexOf tsCol) r ∉ (partitionTs now t).2.rows) ∧
        (n < now - 30 →
          parseTsRow (t.cols.indexOf tsCol) r ∈ (partitionTs now t).2.rows ∧
          parseTsRow (t.cols.indexOf tsCol) r ∉ (partitionTs now t).1.rows)) ∧
    (∀ r ∈ (partitionTs now t).1.rows, r ∉ (partitionTs now t).2.rows) ∧
    (partitionTs now t).1.rows.length + (partitionTs now t).2.rows.length =
      t.rows.length := by
  refine ⟨?_, partitionTs_disjoint now t, ?_⟩
  · intro r hr n hn
    have hcell : (parseTsRow (t.cols.indexOf tsCol) r).getD (t.cols.indexOf tsCol)
        Value.null = Value.time n := by
      rw [parseTsRow_getD, hn, toTsValue_some]
    constructor
    · intro hge
      constructor
      · simp only [partitionTs, List.mem_filter]
        refine ⟨List.mem_map_of_mem _ hr, ?_⟩
        rw [hcell, tsGE_time]
        exact decide_eq_true hge
      · intro hmem
        simp only [partitionTs, List.mem_filter] at hmem
        rw [hcell, tsLT_time] at hmem
        exact absurd (of_decide_eq_true hmem.2) (not_lt.mpr hge)
    · intro hlt
      constructor
      · simp only [partitionTs, List.mem_filter]
        refine ⟨List.mem_map_of_mem _ hr, ?_⟩
        rw [hcell, tsLT_time]
        exact decide_eq_true hlt
      · intro hmem
        simp only [partitionTs, List.mem_filter] at hmem
        rw [hcell, tsGE_time] at hmem
        exact absurd (of_decide_eq_true hmem.2) (not_le.mpr hlt)
  · rw [partitionTs_count, List.countP_eq_length.mpr hall]

/-- Witness for C2: `now = 100`, one 2-day-old and one 45-day-old
timestamp; the sizes sum, and the split is exactly one hot row (the
2-day-old one) and one cold row (the 45-day-old one). -/
theorem partition_hot_cold_witness :
    (partitionTs 100 tsTable).1.rows.length +
        (partitionTs 100 tsTable).2.rows.length = tsTable.rows.length ∧
    partitionTs 100 tsTable =
      (⟨[tsCol], [[Value.time 98]]⟩, ⟨[tsCol], [[Value.time 55]]⟩) :=
  ⟨(partition_hot_cold tsTable 100 (by decide) (by decide)).2.2, by decide⟩

/-- C3: a row of a `timestamp` table whose timestamp value is absent or
unparsable is placed in neither the hot nor the cold partition (the
total partitioning function raises nothing), and when such a row exists
the hot count plus the cold count is strictly below the row count. -/
theorem partition_unparsable (t : Table) (now : ℤ) (r0 : Row)
    (_hcol : tsCol ∈ t.cols) (h0 : r0 ∈ t.rows)
    (hfail : to_datetime (r0.getD (t.cols.indexOf tsCol) Value.null) = none) :
    parseTsRow (t.cols.indexOf tsCol) r0 ∉ (partitionTs now t).1.rows ∧
    parseTsRow (t.cols.indexOf tsCol) r0 ∉ (partitionTs now t).2.rows ∧
    (partitionTs now t).1.rows.length + (partitionTs now t).2.rows.length <
      t.rows.length := by
  have hcell : (parseTsRow (t.cols.indexOf tsCol) r0).getD (t.cols.indexOf tsCol)
      Value.null = Value.null := by
    rw [parseTsRow_getD, hfail, toTsValue_none]
  refine ⟨?_, ?_, ?_⟩
  · intro hmem
    simp only [partitionTs, List.mem_filter] at hmem
    rw [hcell, tsGE_null] at hmem
    exact Bool.false_ne_true hmem.2
  · intro hmem
    simp only [partitionTs, List.mem_filter] at hmem
    rw [hcell, tsLT_null] at hmem
    exact Bool.false_ne_true hmem.2
  · rw [partitionTs_count]
    refine Nat.lt_of_le_of_ne (List.countP_le_length _) (fun hlen => ?_)
    have := List.countP_eq_length.mp hlen r0 h0
    rw [hfail] at this
    exact Bool.false_ne_true this

/-- Witness for C3: a single-row table whose timestamp text is not a
timestamp; the row lands in neither partition and the counts fall short
of the table size. -/
theorem partition_unparsable_witness :
    parseTsRow (badTsTable.cols.indexOf tsCol) badRow ∉
        (partitionTs 100 badTsTable).1.rows ∧
    parseTsRow (badTsTable.cols.indexOf tsCol) badRow ∉
        (partitionTs 100 badTsTable).2.rows ∧
    (partitionTs 100 badTsTable).1.rows.length +
        (partitionTs 100 badTsTable).2.rows.length < badTsTable.rows.length :=
  partition_unparsable badTsTable 100 badRow (by decide) (by decide) (by decide)

/-- C4: when the cleaned table has no `timestamp` column the handler
skips partitioning instead of failing — the skip is reported (the
warning branch runs), both placeholder partitions are empty rather than
an all-hot or all-cold split, and serialization, compression, the size
strings, the row metric and both downloads are still produced from the
full cleaned table. -/
theorem partition_skipped (compress : List Char → List Char) (now : ℤ)
    (df0 : Table) (h : tsCol ∉ (clean df0).1.cols) :
    (processTable compress now df0).partitionSkipped = true ∧
    (processTable compress now df0).hot.rows = [] ∧
    (processTable compress now df0).cold.rows = [] ∧
    (processTable compress now df0).cleaned = (clean df0).1 ∧
    (processTable compress now df0).processed_csv = to_csv (clean df0).1 ∧
    (processTable compress now df0).csvSize =
      bytesize_fmt ((to_csv (clean df0).1).length : ℤ) sfxB ∧
    (processTable compress now df0).gzipSize =
      bytesize_fmt ((compress (to_csv (clean df0).1)).length : ℤ) sfxB ∧
    (processTable compress now df0).rowsMetric = (clean df0).1.rows.length ∧
    (processTable compress now df0).downloads = downloadNames := by
  simp only [processTable]
  rw [if_neg h]
  exact ⟨rfl, rfl, rfl, rfl, rfl, rfl, rfl, rfl, rfl⟩

/-- Witness for C4: a table without a `timestamp` column is processed
with the skip reported and empty placeholder partitions. -/
theorem partition_skipped_witness :
    (processTable id 0 noTsTable).partitionSkipped = true ∧
    (processTable id 0 noTsTable).hot.rows = [] ∧
    (processTable id 0 noTsTable).cold.rows = [] :=
  ⟨(partition_skipped id 0 noTsTable (by decide)).1,
   (partition_skipped id 0 noTsTable (by decide)).2.1,
   (partition_skipped id 0 noTsTable (by decide)).2.2.1⟩

/-- C7: an upload whose lower-cased trailing extension is outside the
recognized set aborts with the unsupported-format stop before any
cleaning step, and no successful output (hence no downloads) is
produced. -/
theorem unsupported_extension_aborts (compress : List Char → List Char)
    (now : ℤ) (f : UploadedFile)
    (h : extOf f.name ∉ ([r"csv", r"xlsx", r"json", r"txt", r"pdf", r"docx"] : List String)) :
    runUpload compress now f =
      RunResult.failed (ReadError.unsupported (extOf f.name)) ∧
    ∀ o : Output, runUpload compress now f ≠ RunResult.success o := by
  simp only [List.mem_cons, List.not_mem_nil, or_false, not_or] at h
  obtain ⟨h1, h2, h3, h4, h5, h6⟩ := h
  have hrun : runUpload compress now f =
      RunResult.failed (ReadError.unsupported (extOf f.name)) := by
    simp only [runUpload, read_uploaded_file]
    rw [if_neg h1, if_neg h2, if_neg h3, if_neg h4, if_neg h5, if_neg h6]
  refine ⟨hrun, fun o hsucc => ?_⟩
  rw [hrun] at hsucc
  exact RunResult.noConfusion hsucc

/-- Witness for C7: the upload named `data.xml` aborts unsupported. -/
theorem unsupported_extension_aborts_witness :
    runUpload id 0 xmlFile =
      RunResult.failed (ReadError.unsupported (extOf xmlFile.name)) ∧
    extOf xmlFile.name = "xml" :=
  ⟨(unsupported_extension_aborts id 0 xmlFile (by decide)).1, by decide⟩

/-! ### Lemmas about stripping -/

theorem head?_dropWhile_not {α : Type} (p : α → Bool) (l : List α) :
    ∀ c, (l.dropWhile p).head? = some c → p c = false := by
  induction l with
  | nil => intro c hc; simp [List.dropWhile] at hc
  | cons a l ih =>
    rw [List.dropWhile_cons]
    by_cases hpa : p a
    · rw [if_pos hpa]; exact ih
    · rw [if_neg hpa]
      intro c hc
      simp only [List.head?_cons, Option.some.injEq] at hc
      rw [← hc]
      exact Bool.eq_false_iff.mpr hpa

theorem getLast?_dropWhile {α : Type} (p : α → Bool) (l : List α)
    (h : l.dropWhile p ≠ []) : (l.dropWhile p).getLast? = l.getLast? := by
  induction l with
  | nil => exact absurd rfl h
  | cons a l ih =>
    rw [List.dropWhile_cons] at h ⊢
    by_cases hpa : p a
    · rw [if_pos hpa] at h ⊢
      rw [ih h]
      have hl : l ≠ [] := by
        rintro rfl
        exact h rfl
      obtain ⟨b, l2, rfl⟩ := List.exists_cons_of_ne_nil hl
      rw [List.getLast?_cons_cons]
    · rw [if_neg hpa]

/-- The stripped text begins with no whitespace character. -/
theorem strip_head_not_ws (l : List Char) :
    ∀ c, (strip l).head? = some c → c.isWhitespace = false := by
  intro c hc
  unfold strip at hc
  rw [List.head?_reverse] at hc
  have hne : (l.dropWhile Char.isWhitespace).reverse.dropWhile Char.isWhitespace ≠ [] := by
    intro h0
    rw [h0] at hc
    exact Option.noConfusion hc
  rw [getLast?_dropWhile _ _ hne, List.getLast?_reverse] at hc
  exact head?_dropWhile_not _ _ c hc

/-- The stripped text ends with no whitespace character. -/
theorem strip_last_not_ws (l : List Char) :
    ∀ c, (strip l).getLast? = some c → c.isWhitespace = false := by
  intro c hc
  unfold strip at hc
  rw [List.getLast?_reverse] at hc
  exact head?_dropWhile_not _ _ c hc

/-- C8: text-like ingestion yields a single-column table
(`text_content`) with exactly one row per line of the extracted line
sequence, each row holding that line's trimmed text (no leading or
trailing whitespace); the `txt` and `pdf` branches produce exactly this
table, and a PDF page whose extraction fails contributes nothing — the
table equals the one produced without that page. -/
theorem text_ingestion_lines (f : UploadedFile) (text : List Char)
    (p1 p2 : List (Option (List Char))) :
    (linesTable text).cols = [textContentCol] ∧
    (linesTable text).rows =
      (splitlines text).map (fun l => [Value.str (String.mk (strip l))]) ∧
    (linesTable text).rows.length = (splitlines text).length ∧
    (∀ r ∈ (linesTable text).rows, ∃ s : String,
      r = [Value.str s] ∧
      (∀ c, s.data.head? = some c → c.isWhitespace = false) ∧
      (∀ c, s.data.getLast? = some c → c.isWhitespace = false)) ∧
    (extOf f.name = "txt" →
      read_uploaded_file f = Except.ok (linesTable f.content)) ∧
    (extOf f.name = "pdf" →
      read_uploaded_file f = Except.ok (linesTable (pdfText f.pdfPages))) ∧
    linesTable (pdfText (p1 ++ none :: p2)) = linesTable (pdfText (p1 ++ p2)) := by
  refine ⟨rfl, rfl, by simp [linesTable], ?_, ?_, ?_, ?_⟩
  · intro r hr
    simp only [linesTable] at hr
    obtain ⟨l, _, rfl⟩ := List.mem_map.mp hr
    exact ⟨String.mk (strip l), rfl, strip_head_not_ws l, strip_last_not_ws l⟩
  · intro h
    simp only [read_uploaded_file]
    rw [h]
    rfl
  · intro h
    simp only [read_uploaded_file]
    rw [h]
    rfl
  · refine congrArg linesTable ?_
    simp [pdfText]

/-- Witness for C8: a two-line text upload ingests to the single-column
trimmed table, and a PDF upload with a failing middle page ingests
through the degrade-to-empty rule. -/
theorem text_ingestion_lines_witness :
    read_uploaded_file txtFile = Except.ok (linesTable txtFile.content) ∧
    read_uploaded_file pdfFile = Except.ok (linesTable (pdfText pdfFile.pdfPages)) ∧
    linesTable txtFile.content =
      ⟨[textContentCol], [[Value.str (String.mk ['a'])], [Value.str (String.mk ['b'])]]⟩ :=
  ⟨(text_ingestion_lines txtFile [] [] []).2.2.2.2.1 (by decide),
   (text_ingestion_lines pdfFile [] [] []).2.2.2.2.2.1 (by decide),
   by decide⟩

/-! ### Lemmas about size formatting -/

theorem str_append_empty (s : String) : s ++ "" = s := by
  obtain ⟨d⟩ := s
  show String.mk (d ++ []) = String.mk d
  rw [List.append_nil]

theorem str_append_assoc (a b c : String) : a ++ b ++ c = a ++ (b ++ c) := by
  obtain ⟨da⟩ := a
  obtain ⟨db⟩ := b
  obtain ⟨dc⟩ := c
  show String.mk (da ++ db ++ dc) = String.mk (da ++ (db ++ dc))
  rw [List.append_assoc]

/-- Counterexample to C5 as stated: at the byte count `1024 ^ 5` the
formatter falls through to the `P` unit and renders with ONE decimal
place (`"1.0 PB"`), not two. -/
theorem bytesize_two_decimals_cex :
    bytesize_fmt ((1024 : ℤ) ^ 5) sfxB = "1.0 PB" ∧
    fracDigits (bytesize_fmt ((1024 : ℤ) ^ 5) sfxB) = 1 ∧
    fracDigits (bytesize_fmt ((1024 : ℤ) ^ 5) sfxB) ≠ 2 :=
  ⟨by decide, by decide, by decide⟩

/-- C5 (amended): `bytesize_fmt` repeatedly divides by 1024 while the
magnitude is ≥ 1024, picking the unit at the step where the magnitude
first falls below 1024, and renders with two decimal places for the
units bytes/K/M/G/T; but when the magnitude reaches the `P` fall-through
(any |n| ≥ 1024^5) it renders with ONE decimal place, even if the
reduced magnitude is still ≥ 1024.  Total on 0 and negative inputs. -/
theorem bytesize_fmt_units (n : ℤ) :
    (n.natAbs < 1024 ^ 1 → bytesize_fmt n sfxB = fmtFixedPow2 n 0 2 ++ " B") ∧
    (1024 ^ 1 ≤ n.natAbs → n.natAbs < 1024 ^ 2 →
      bytesize_fmt n sfxB = fmtFixedPow2 n 1 2 ++ " KB") ∧
    (1024 ^ 2 ≤ n.natAbs → n.natAbs < 1024 ^ 3 →
      bytesize_fmt n sfxB = fmtFixedPow2 n 2 2 ++ " MB") ∧
    (1024 ^ 3 ≤ n.natAbs → n.natAbs < 1024 ^ 4 →
      bytesize_fmt n sfxB = fmtFixedPow2 n 3 2 ++ " GB") ∧
    (1024 ^ 4 ≤ n.natAbs → n.natAbs < 1024 ^ 5 →
      bytesize_fmt n sfxB = fmtFixedPow2 n 4 2 ++ " TB") ∧
    (1024 ^ 5 ≤ n.natAbs → bytesize_fmt n sfxB = fmtFixedPow2 n 5 1 ++ " PB") := by
  refine ⟨?_, ?_, ?_, ?_, ?_, ?_⟩
  · intro h1
    simp only [bytesize_fmt, bytesize_fmt_go]
    rw [if_pos (by norm_num at h1 ⊢; omega)]
    rw [str_append_assoc, str_append_assoc]
    rfl
  · intro h1 h2
    simp only [bytesize_fmt, bytesize_fmt_go]
    rw [if_neg (by norm_num at h1 ⊢; omega), if_pos (by norm_num at h2 ⊢; omega)]
    rw [str_append_assoc, str_append_assoc]
    rfl
  · intro h1 h2
    simp only [bytesize_fmt, bytesize_fmt_go]
    rw [if_neg (by norm_num at h1 ⊢; omega), if_neg (by norm_num at h1 ⊢; omega),
      if_pos (by norm_num at h2 ⊢; omega)]
    rw [str_append_assoc, str_append_assoc]
    rfl
  · intro h1 h2
    simp only [bytesize_fmt, bytesize_fmt_go]
    rw [if_neg (by norm_num at h1 ⊢; omega), if_neg (by norm_num at h1 ⊢; omega),
      if_neg (by norm_num at h1 ⊢; omega), if_pos (by norm_num at h2 ⊢; omega)]
    rw [str_append_assoc, str_append_assoc]
    rfl
  · intro h1 h2
    simp only [bytesize_fmt, bytesize_fmt_go]
    rw [if_neg (by norm_num at h1 ⊢; omega), if_neg (by norm_num at h1 ⊢; omega),
      if_neg (by norm_num at h1 ⊢; omega), if_neg (by norm_num at h1 ⊢; omega),
      if_pos (by norm_num at h2 ⊢; omega)]
    rw [str_append_assoc, str_append_assoc]
    rfl
  · intro h1
    simp only [bytesize_fmt, bytesize_fmt_go]
    rw [if_neg (by norm_num at h1 ⊢; omega), if_neg (by norm_num at h1 ⊢; omega),
      if_neg (by norm_num at h1 ⊢; omega), if_neg (by norm_num at h1 ⊢; omega),
      if_neg (by norm_num at h1 ⊢; omega)]
    rw [str_append_assoc]
    rfl

/-- Witness for C5 (amended) at concrete inputs: 2048 bytes land in the
K branch with two decimals (`"2.00 KB"`), and 0 renders as
`"0.00 B"`. -/
theorem bytesize_fmt_units_witness :
    bytesize_fmt 2048 sfxB = fmtFixedPow2 2048 1 2 ++ " KB" ∧
    bytesize_fmt 2048 sfxB = "2.00 KB" ∧
    bytesize_fmt 0 sfxB = "0.00 B" ∧
    fracDigits (bytesize_fmt 2048 sfxB) = 2 :=
  ⟨(bytesize_fmt_units 2048).2.1 (by decide) (by decide), by decide, by decide,
   by decide⟩

/-! ### Lemmas about CSV splitting and joining -/

theorem string_mk_data (s : String) : String.mk s.data = s := by
  obtain ⟨d⟩ := s
  rfl

theorem splitSep_of_not_mem (sep : Char) (f : List Char) (h : sep ∉ f) :
    splitSep sep f = [f] := by
  induction f with
  | nil => rfl
  | cons c cs ih =>
    simp only [List.mem_cons, not_or] at h
    obtain ⟨h1, h2⟩ := h
    simp only [splitSep]
    rw [if_neg (fun he => h1 he.symm), ih h2]
    rfl

theorem splitSep_append (sep : Char) (f tl : List Char) (h : sep ∉ f) :
    splitSep sep (f ++ sep :: tl) = f :: splitSep sep tl := by
  induction f with
  | nil => simp only [List.nil_append, splitSep, if_pos]
  | cons c cs ih =>
    simp only [List.mem_cons, not_or] at h
    obtain ⟨h1, h2⟩ := h
    simp only [List.cons_append, splitSep, List.append_eq]
    rw [if_neg (fun he => h1 he.symm), ih h2]
    rfl

theorem splitSep_joinSep (sep : Char) (fs : List (List Char)) (hne : fs ≠ [])
    (h : ∀ f ∈ fs, sep ∉ f) : splitSep sep (joinSep sep fs) = fs := by
  induction fs with
  | nil => exact absurd rfl hne
  | cons f fs ih =>
    rcases fs with _ | ⟨f2, fs2⟩
    · exact splitSep_of_not_mem sep f (h f (List.mem_cons_self f []))
    · simp only [joinSep]
      rw [splitSep_append sep f _ (h f (List.mem_cons_self _ _))]
      rw [ih (by simp) (fun g hg => h g (List.mem_cons_of_mem f hg))]

theorem joinSep_ne_nil (sep : Char) (fs : List (List Char)) (hne : fs ≠ [])
    (h : ∀ f ∈ fs, f ≠ []) : joinSep sep fs ≠ [] := by
  rcases fs with _ | ⟨f, fs⟩
  · exact absurd rfl hne
  · rcases fs with _ | ⟨f2, fs2⟩
    · exact h f (List.mem_cons_self _ _)
    · simp [joinSep]

theorem mem_joinSep (sep : Char) (fs : List (List Char)) (c : Char)
    (hc : c ∈ joinSep sep fs) : c = sep ∨ ∃ f ∈ fs, c ∈ f := by
  induction fs with
  | nil => simp [joinSep] at hc
  | cons f fs ih =>
    rcases fs with _ | ⟨f2, fs2⟩
    · exact Or.inr ⟨f, List.mem_cons_self _ _, hc⟩
    · simp only [joinSep] at hc
      rcases List.mem_append.mp hc with h1 | h2
      · exact Or.inr ⟨f, List.mem_cons_self _ _, h1⟩
      · rcases List.mem_cons.mp h2 with rfl | h3
        · exact Or.inl rfl
        · rcases ih h3 with h4 | ⟨g, hg, hcg⟩
          · exact Or.inl h4
          · exact Or.inr ⟨g, List.mem_cons_of_mem _ hg, hcg⟩

/-- Splitting a block of terminated lines at the line terminator yields
the lines plus one trailing empty field. -/
theorem splitSep_unlines (ls : List (List Char)) (h : ∀ l ∈ ls, '\n' ∉ l) :
    splitSep '\n' ((ls.map (fun l => l ++ ['\n'])).flatten) = ls ++ [[]] := by
  induction ls with
  | nil => rfl
  | cons l ls ih =>
    simp only [List.map_cons, List.flatten_cons]
    rw [List.append_assoc, List.singleton_append]
    rw [splitSep_append _ l _ (h l (List.mem_cons_self _ _))]
    rw [ih (fun g hg => h g (List.mem_cons_of_mem _ hg))]
    rfl

/-- Counterexample to C6 as stated: serializing the table whose one cell
is the text `01` and re-ingesting the bytes yields the number 1 — the
value's text changes from `01` to `1`, so the round trip does not
preserve row values as text. -/
theorem csv_roundtrip_cex :
    read_csv (to_csv cexTable) = some cexReadBack ∧
    cexReadBack.cols = cexTable.cols ∧
    cellTexts cexTable = [[String.mk ['0', '1']]] ∧
    cellTexts cexReadBack = [[String.mk ['1']]] ∧
    cellTexts cexReadBack ≠ cellTexts cexTable :=
  ⟨by decide, by decide, by decide, by decide, by decide⟩

/-- C6 (amended): serialization followed by delimited-text ingestion is a
round trip up to textual equality of values, for tables whose column
names and value texts are nonempty and free of separator and line-break
characters and whose value texts are inference-stable (re-reading the
text yields a value with the same text — excluded are texts such as
`01`, numeric up to leading zeros or sign, whose re-read value prints
differently, and empty texts, whose single-column rows would serialize
to blank lines that ingestion skips). -/
theorem csv_roundtrip (t : Table)
    (hc : t.cols ≠ [])
    (hcols : ∀ c ∈ t.cols, c.data ≠ [] ∧ ',' ∉ c.data ∧ '\n' ∉ c.data)
    (hrows : ∀ r ∈ t.rows, r ≠ [])
    (hvals : ∀ r ∈ t.rows, ∀ v ∈ r,
      (render v).data ≠ [] ∧ ',' ∉ (render v).data ∧ '\n' ∉ (render v).data ∧
      render (infer (render v).data) = render v) :
    ∃ t2 : Table, read_csv (to_csv t) = some t2 ∧ t2.cols = t.cols ∧
      cellTexts t2 = cellTexts t := by
  have hhne : t.cols.map String.data ≠ [] :=
    fun h0 => hc (List.map_eq_nil_iff.mp h0)
  have hfieldrow : ∀ r ∈ t.rows, rowFields r ≠ [] := by
    intro r hr h0
    exact hrows r hr (List.map_eq_nil_iff.mp h0)
  have hfieldmem : ∀ r ∈ t.rows, ∀ f ∈ rowFields r,
      f ≠ [] ∧ ',' ∉ f ∧ '\n' ∉ f := by
    intro r hr f hf
    obtain ⟨v, hv, rfl⟩ := List.mem_map.mp hf
    obtain ⟨h1, h2, h3, -⟩ := hvals r hr v hv
    exact ⟨h1, h2, h3⟩
  have hheadmem : ∀ f ∈ t.cols.map String.data, f ≠ [] ∧ ',' ∉ f ∧ '\n' ∉ f := by
    intro f hf
    obtain ⟨c, hcm, rfl⟩ := List.mem_map.mp hf
    exact hcols c hcm
  have hsplit : splitSep '\n' (to_csv t) =
      (joinSep ',' (t.cols.map String.data) ::
        t.rows.map (fun r => joinSep ',' (rowFields r))) ++ [[]] := by
    have h1 : to_csv t =
        (((t.cols.map String.data :: t.rows.map rowFields).map (joinSep ',')).map
            (fun l => l ++ ['\n'])).flatten := by
      simp only [to_csv, lineOf, List.map_cons, List.map_map, List.flatten_cons]
      rfl
    rw [h1]
    rw [splitSep_unlines]
    · rw [List.map_cons, List.map_map]
      rfl
    · intro l hl
      obtain ⟨fs, hfs, rfl⟩ := List.mem_map.mp hl
      intro hnl
      rcases mem_joinSep ',' fs '\n' hnl with he | ⟨f, hf, hcf⟩
      · exact absurd he (by decide)
      · rcases List.mem_cons.mp hfs with rfl | hfs2
        · exact (hheadmem f hf).2.2 hcf
        · obtain ⟨r, hrmem, rfl⟩ := List.mem_map.mp hfs2
          exact (hfieldmem r hrmem f hf).2.2 hcf
  have hfilter : (splitSep '\n' (to_csv t)).filter (fun l => decide (l ≠ [])) =
      joinSep ',' (t.cols.map String.data) ::
        t.rows.map (fun r => joinSep ',' (rowFields r)) := by
    rw [hsplit, List.filter_append]
    have h2 : (([[]] : List (List Char)).filter (fun l => decide (l ≠ []))) = [] := rfl
    rw [h2, List.append_nil]
    apply List.filter_eq_self.mpr
    intro l hl
    rcases List.mem_cons.mp hl with rfl | h3
    · exact decide_eq_true (joinSep_ne_nil ',' _ hhne (fun f hf => (hheadmem f hf).1))
    · obtain ⟨r, hrm, rfl⟩ := List.mem_map.mp h3
      exact decide_eq_true
        (joinSep_ne_nil ',' _ (hfieldrow r hrm) (fun f hf => (hfieldmem r hrm f hf).1))
  refine ⟨⟨(splitSep ',' (joinSep ',' (t.cols.map String.data))).map String.mk,
           (t.rows.map (fun r => joinSep ',' (rowFields r))).map
             (fun l => (splitSep ',' l).map infer)⟩, ?_, ?_, ?_⟩
  · simp only [read_csv]
    rw [hfilter]
  · show (splitSep ',' (joinSep ',' (t.cols.map String.data))).map String.mk = t.cols
    rw [splitSep_joinSep ',' _ hhne (fun f hf => (hheadmem f hf).2.1)]
    rw [List.map_map]
    conv_rhs => rw [← List.map_id t.cols]
    apply List.map_congr_left
    intro c _
    exact string_mk_data c
  · simp only [cellTexts, List.map_map]
    apply List.map_congr_left
    intro r hr
    show ((splitSep ',' (joinSep ',' (rowFields r))).map infer).map render = r.map render
    rw [splitSep_joinSep ',' _ (hfieldrow r hr) (fun f hf => (hfieldmem r hr f hf).2.1)]
    simp only [rowFields, List.map_map]
    apply List.map_congr_left
    intro v hv
    exact (hvals r hr v hv).2.2.2

/-- Witness for C6 (amended) at a concrete safe table: the round trip
reproduces the columns and the values as text (here even the table
itself). -/
theorem csv_roundtrip_witness :
    (∃ t2 : Table, read_csv (to_csv rtTable) = some t2 ∧ t2.cols = rtTable.cols ∧
      cellTexts t2 = cellTexts rtTable) ∧
    read_csv (to_csv rtTable) = some rtTable :=
  ⟨csv_roundtrip rtTable (by decide) (by decide) (by decide) (by decide), by decide⟩
